import Mathlib

/-!
Shallow embedding of the two components of this repository:

* the transaction-status log (`TransactionManagerImpl` in package `tm`),
  modelled in namespace `TM` below: the log file is a `List Nat` of bytes,
  the in-memory `xidCounter` is an `Int` (Go `int64`), and operations that
  can `panic` in Go return `Except String`;
* the reference-counted resource cache (`AbstractCache` in package
  `common`), modelled in namespace `AC` below: the three Go maps become
  association lists with the Go map semantics (lookup of the key, insert
  replaces, delete removes), and the injected loader call is passed in as
  the outcome it would produce.

Every definition is translated directly from the Go source.
-/

namespace TM

/-- `LenXidHeaderLength = 8` in the source. -/
def lenXidHeaderLength : Int := 8

/-- `XidFieldSize = 1` in the source. -/
def xidFieldSize : Int := 1

/-- `FieldTranActive = byte(0)`. -/
def fieldTranActive : Nat := 0

/-- `FieldTranCommitted = byte(1)`. -/
def fieldTranCommitted : Nat := 1

/-- `FieldTranAborted = byte(2)`. -/
def fieldTranAborted : Nat := 2

/-- `SuperXid = int64(0)`. -/
def superXid : Int := 0

/-- State of a `TransactionManagerImpl`: the bytes of the `.xid` file, the
in-memory `xidCounter` (Go `int64`), and the `fc io.WriteCloser` field,
which is the nil interface (`none`) unless explicitly set — neither
`Create` nor `Open` sets it. -/
structure TMState where
  file : List Nat
  xidCounter : Int
  fc : Option Unit
deriving Repr, DecidableEq

/-- One event on the underlying file, used to state durability ordering:
`WriteAt` of one byte at an offset, or a `Sync` (flush). -/
inductive FileEvent where
  | writeAt (off : Int) (b : Nat)
  | sync
deriving Repr, DecidableEq

/-- Go `os.File.WriteAt` of a single byte at a non-negative offset:
overwrites in place, zero-filling any gap past the end of the file. -/
def writeByteAt (f : List Nat) (off : Nat) (b : Nat) : List Nat :=
  if off < f.length then f.set off b
  else f ++ List.replicate (off - f.length) 0 ++ [b]

/-- `getXidPosition`: `LenXidHeaderLength + (xid-1)*XidFieldSize`. -/
def getXidPosition (xid : Int) : Int :=
  lenXidHeaderLength + (xid - 1) * xidFieldSize

/-- The low byte of an `int64`, as written by `byte(t.xidCounter)`. -/
def lowByte (c : Int) : Nat := (c % 256).toNat

/-- `updateXID(xid, status)`: `WriteAt` one status byte at
`getXidPosition(xid)` then `Sync`; a `WriteAt` failure (negative offset)
panics. Returns the new state and the file events in order. -/
def updateXID (s : TMState) (xid : Int) (status : Nat) :
    Except String (TMState × List FileEvent) :=
  let offset := getXidPosition xid
  if offset < 0 then .error "WriteAt: negative offset"
  else .ok ({ s with file := writeByteAt s.file offset.toNat status },
            [.writeAt offset status, .sync])

/-- `incrXIDCounter`: increment `xidCounter`, `WriteAt` its low byte
(`byte(t.xidCounter)`, a one-byte buffer) at offset 0, then `Sync`. -/
def incrXIDCounter (s : TMState) : TMState × List FileEvent :=
  let c := s.xidCounter + 1
  ({ s with xidCounter := c, file := writeByteAt s.file 0 (lowByte c) },
   [.writeAt 0 (lowByte c), .sync])

/-- `Begin`: under `counterLock`, `xid := xidCounter + 1`, write Active at
its position (durable), then persist the incremented counter (durable);
return `xid`. The event list concatenates the two steps in order. -/
def Begin (s : TMState) : Except String (Int × TMState × List FileEvent) := do
  let xid := s.xidCounter + 1
  let (s1, t1) ← updateXID s xid fieldTranActive
  let (s2, t2) := incrXIDCounter s1
  .ok (xid, s2, t1 ++ t2)

/-- `Commit(xid)`: `updateXID(xid, FieldTranCommitted)`. -/
def Commit (s : TMState) (xid : Int) : Except String (TMState × List FileEvent) :=
  updateXID s xid fieldTranCommitted

/-- `Abort(xid)`: `updateXID(xid, FieldTranAborted)`. -/
def Abort (s : TMState) (xid : Int) : Except String (TMState × List FileEvent) :=
  updateXID s xid fieldTranAborted

/-- `checkXID(xid, status)`: `ReadAt` one byte at `getXidPosition(xid)` and
compare; a failed read (negative offset, or offset at/past end of file,
where Go returns an error such as `io.EOF`) panics. -/
def checkXID (s : TMState) (xid : Int) (status : Nat) : Except String Bool :=
  let offset := getXidPosition xid
  if offset < 0 then .error "ReadAt: negative offset"
  else
    match s.file[offset.toNat]? with
    | none => .error "EOF"
    | some b => .ok (b == status)

/-- `IsActive(xid)`: `false` for the super transaction, else `checkXID`. -/
def IsActive (s : TMState) (xid : Int) : Except String Bool :=
  if xid = superXid then .ok false
  else checkXID s xid fieldTranActive

/-- `IsCommitted(xid)`: `true` for the super transaction, else `checkXID`. -/
def IsCommitted (s : TMState) (xid : Int) : Except String Bool :=
  if xid = superXid then .ok true
  else checkXID s xid fieldTranCommitted

/-- `IsAborted(xid)`: `false` for the super transaction, else `checkXID`. -/
def IsAborted (s : TMState) (xid : Int) : Except String Bool :=
  if xid = superXid then .ok false
  else checkXID s xid fieldTranAborted

/-- `checkXIDCounter`: seek to the end for the file length, panic if it is
below the header length; read the 8-byte header but take only `buf[0]` as
the counter (`int64(buf[0])`); panic unless the file length equals
`getXidPosition(xidCounter + 1)`. -/
def checkXIDCounter (s : TMState) : Except String TMState :=
  let fileLen : Int := s.file.length
  if fileLen < lenXidHeaderLength then .error "BadXIDFileError"
  else
    let counter : Int := s.file.getD 0 0
    let s' := { s with xidCounter := counter }
    if getXidPosition (counter + 1) ≠ fileLen then .error "BadXIDFileException"
    else .ok s'

/-- `NewTransactionManagerImpl(raf, fc)`: build the struct with
`xidCounter = 0` and run `checkXIDCounter`. (No caller in the repository
uses it.) -/
def newTransactionManagerImpl (file : List Nat) (fc : Option Unit) :
    Except String TMState :=
  checkXIDCounter { file := file, xidCounter := 0, fc := fc }

/-- `Create(path)`: a fresh file holding the 8 zero bytes of the empty
header; the struct literal sets only `file`, so `xidCounter = 0` and
`fc = nil`. `checkXIDCounter` is not called. -/
def Create : TMState :=
  { file := List.replicate 8 0, xidCounter := 0, fc := none }

/-- `Open(path)`: open the existing file and return
`&TransactionManagerImpl\x7bfile: file\x7d` directly — no call to
`checkXIDCounter` (and no read of the header), and `fc = nil`. -/
def Open (contents : List Nat) : TMState :=
  { file := contents, xidCounter := 0, fc := none }

/-- `Close`: `t.fc.Close()` then `t.file.Close()`. `fc` is the nil
interface on every handle made by `Create` or `Open`, and calling a method
on a nil interface panics. -/
def Close (s : TMState) : Except String Unit :=
  match s.fc with
  | none => .error "nil interface dereference in fc.Close"
  | some _ => .ok ()

/-- The file produced by `Create`, one `Begin` (xid 1) and `Commit(1)`:
header byte 1, seven zero header bytes, one Committed status byte. -/
def demoFile : List Nat := [1, 0, 0, 0, 0, 0, 0, 0, 1]

/-- The state after `Create`, `Begin` and `Commit` of the returned xid. -/
def afterCreateBeginCommit : Except String TMState := do
  let (xid, s1, _) ← Begin Create
  let (s2, _) ← Commit s1 xid
  .ok s2

/-- The log state after `n` successive `Begin` calls on a fresh
`Create` handle. -/
def beginN : Nat → Except String TMState
  | 0 => .ok Create
  | n + 1 => do
    let s ← beginN n
    let (_, s', _) ← Begin s
    .ok s'

/-- The list of xids returned by `n` successive `Begin` calls on a fresh
`Create` handle (in order). -/
def beginXids : Nat → Except String (List Int)
  | 0 => .ok []
  | n + 1 => do
    let xs ← beginXids n
    let s ← beginN n
    let (xid, _, _) ← Begin s
    .ok (xs ++ [xid])

/-- The durability round-trip of the spec, exactly as the claim sequences
it: `Create`, `Begin`, `Commit(xid)`, `Close()`, `Open(p)`,
`IsCommitted(xid)`. -/
def roundtrip : Except String Bool := do
  let s0 := Create
  let (xid, s1, _) ← Begin s0
  let (s2, _) ← Commit s1 xid
  let _ ← Close s2
  let s3 := Open s2.file
  IsCommitted s3 xid

/-- The same round-trip with the `Close()` step skipped, to locate the
failure. -/
def roundtripNoClose : Except String Bool := do
  let s0 := Create
  let (xid, s1, _) ← Begin s0
  let (s2, _) ← Commit s1 xid
  let s3 := Open s2.file
  IsCommitted s3 xid

end TM

namespace AC

/-- Lookup in an association list with Go map semantics: the value bound
to the key, if any. -/
def alookup {α : Type} : List (Int × α) → Int → Option α
  | [], _ => none
  | (k, v) :: l, key => if key = k then some v else alookup l key

/-- `delete(m, key)` on a Go map: remove every binding of the key. -/
def aerase {α : Type} (l : List (Int × α)) (k : Int) : List (Int × α) :=
  l.filter (fun p => !(p.1 == k))

/-- `m[key] = v` on a Go map: bind the key, replacing any old binding. -/
def ainsert {α : Type} (l : List (Int × α)) (k : Int) (v : α) : List (Int × α) :=
  (k, v) :: aerase l k

/-- State of an `AbstractCache`: `cache` and `references` are the two Go
maps, `getting` is the set of keys whose `getting[key]` flag is true,
plus `maxResource` and `count` (Go `int`). -/
structure CacheState (R : Type) where
  cache : List (Int × R)
  references : List (Int × Int)
  getting : List Int
  maxResource : Int
  count : Int
deriving Repr, DecidableEq

/-- `NewAbstractCache(maxResource)`: empty maps, zero count. -/
def NewAbstractCache (R : Type) (maxResource : Int) : CacheState R :=
  { cache := [], references := [], getting := [], maxResource := maxResource,
    count := 0 }

/-- The outcome the injected collaborator call `getForCache(key)` would
produce, supplied to `Get` as an argument. -/
inductive LoadResult (R E : Type) where
  | ok (r : R)
  | err (e : E)
deriving Repr, DecidableEq

/-- What one sequential `Get(key)` call does: spin forever because the key
is being gotten (`blocked`), return `CacheFullError` (`full`), return a
resident resource (`hit`), install a freshly loaded one (`loaded`), or
propagate the loader's error (`loadFailed`). -/
inductive GetResult (R E : Type) where
  | blocked
  | full
  | hit (r : R)
  | loaded (r : R)
  | loadFailed (e : E)
deriving Repr, DecidableEq

/-- `Get(key)`, run sequentially: the result, the state after the call,
and whether `getForCache` was invoked. A key in `getting` makes the `for`
loop spin (`blocked`, no state change). A resident key bumps
`references[key]` and returns. An absent key on a bounded cache with
`count == maxResource` returns `CacheFullError`. Otherwise reserve
(`count++`, `getting[key] = true`), run the loader outside the lock, and
either roll the reservation back on error or install the resource with
refcount 1. -/
def Get {R E : Type} (s : CacheState R) (key : Int) (load : LoadResult R E) :
    GetResult R E × CacheState R × Bool :=
  if key ∈ s.getting then (.blocked, s, false)
  else
    match alookup s.cache key with
    | some obj =>
        (.hit obj,
         { s with references := ainsert s.references key
                    ((alookup s.references key).getD 0 + 1) },
         false)
    | none =>
        if s.maxResource > 0 ∧ s.count = s.maxResource then (.full, s, false)
        else
          let count1 := s.count + 1
          let getting1 := key :: s.getting
          match load with
          | .err e =>
              (.loadFailed e,
               { s with count := count1 - 1,
                        getting := getting1.filter (fun k => !(k == key)) },
               true)
          | .ok obj =>
              (.loaded obj,
               { s with count := count1,
                        getting := getting1.filter (fun k => !(k == key)),
                        cache := ainsert s.cache key obj,
                        references := ainsert s.references key 1 },
               true)

/-- `Release(key)`: if `references` has the key, decrement; at zero,
call `releaseForCache(cache[key])` (the emitted list records that call and
its argument, Go's zero value for a missing entry shown as `none`),
delete both map entries and decrement `count`; otherwise store the
decremented count back. No binding means no-op. -/
def Release {R : Type} (s : CacheState R) (key : Int) :
    CacheState R × List (Option R) :=
  match alookup s.references key with
  | none => (s, [])
  | some ref =>
      let ref' := ref - 1
      if ref' = 0 then
        ({ s with references := aerase s.references key,
                  cache := aerase s.cache key,
                  count := s.count - 1 },
         [alookup s.cache key])
      else
        ({ s with references := ainsert s.references key ref' }, [])

/-- One iteration of the `Close` loop body for an entry of `cache`:
`delete(references, key)`, `delete(cache, key)`, `count--`. -/
def closeStep {R : Type} (acc : CacheState R) (p : Int × R) : CacheState R :=
  { acc with references := aerase acc.references p.1,
             cache := aerase acc.cache p.1,
             count := acc.count - 1 }

/-- `Close()`: iterate over the entries of `cache`, calling
`releaseForCache(obj)` on each (the emitted list) and deleting its
`references` and `cache` bindings with `count--`. `getting` is not
touched. -/
def Close {R : Type} (s : CacheState R) : CacheState R × List (Option R) :=
  (s.cache.foldl closeStep s, s.cache.map (fun p => some p.2))

/-- Cache states reachable, sequentially, from a fresh `NewAbstractCache`
by completed `Get` (with an arbitrary loader outcome), `Release` and
`Close` calls. -/
inductive Reachable {R E : Type} : CacheState R → Prop where
  | init : ∀ maxResource, Reachable (NewAbstractCache R maxResource)
  | get : ∀ (s : CacheState R) (key : Int) (load : LoadResult R E),
      Reachable s → Reachable (Get s key load).2.1
  | release : ∀ (s : CacheState R) (key : Int),
      Reachable s → Reachable (Release s key).1
  | close : ∀ (s : CacheState R),
      Reachable s → Reachable (Close s).1

/-- A bounded cache of capacity 2 holding keys 1 and 2, used as a concrete
witness state. -/
def demo2 : CacheState Nat := ⟨[(1, 10), (2, 20)], [(1, 1), (2, 1)], [], 2, 2⟩

/-- The reachable state after one successful `Get(5)` (loading 7) on a
fresh bounded cache of capacity 2. -/
def demoLoaded : CacheState Nat :=
  (Get (NewAbstractCache Nat 2) 5 (AC.LoadResult.ok 7 : LoadResult Nat Unit)).2.1

/-- The keys bound by an association list. -/
def keysOf {α : Type} (l : List (Int × α)) : List Int := l.map (fun p => p.1)

/-- The internal invariant of a sequentially used cache: no `getting` flag
is left set between calls, both maps have no duplicate keys, the same keys
are bound in `cache` and in `references`, every refcount is at least 1,
and `count` is the number of resident entries. -/
def Inv {R : Type} (s : CacheState R) : Prop :=
  s.getting = [] ∧
  (keysOf s.cache).Nodup ∧
  (keysOf s.references).Nodup ∧
  (∀ k, (alookup s.cache k).isSome ↔ (alookup s.references k).isSome) ∧
  (∀ k n, alookup s.references k = some n → 1 ≤ n) ∧
  s.count = s.cache.length

end AC

/-! ## Helper lemmas for the transaction log -/

theorem TM.getXidPosition_nonneg (xid : Int) (h : 1 ≤ xid) :
    0 ≤ TM.getXidPosition xid := by
  unfold TM.getXidPosition TM.lenXidHeaderLength TM.xidFieldSize
  omega

theorem TM.beginN_eq (n : Nat) :
    TM.beginN n = .ok ⟨TM.lowByte n :: (List.replicate 7 0 ++ List.replicate n 0),
      (n : Int), none⟩ := by
  induction n with
  | zero =>
      show Except.ok TM.Create = _
      unfold TM.Create TM.lowByte
      norm_num [List.replicate]
  | succ n ih =>
      show (TM.beginN n >>= fun s => TM.Begin s >>= fun p => Except.ok p.2.1) = _
      rw [ih]
      have hcount : (0 : Int) ≤ (n : Int) := by positivity
      have hoff : ¬ TM.getXidPosition ((n : Int) + 1) < 0 := by
        unfold TM.getXidPosition TM.lenXidHeaderLength TM.xidFieldSize; omega
      have hoffeq : (TM.getXidPosition ((n : Int) + 1)).toNat = 8 + n := by
        unfold TM.getXidPosition TM.lenXidHeaderLength TM.xidFieldSize; omega
      simp only [bind, Except.bind, TM.Begin, TM.updateXID, hoff, if_false,
        TM.incrXIDCounter]
      have hlen : (TM.lowByte (n : Int) :: (List.replicate 7 0 ++ List.replicate n 0)).length
          = 8 + n := by simp; omega
      have hw1 : TM.writeByteAt
          (TM.lowByte (n : Int) :: (List.replicate 7 0 ++ List.replicate n 0))
          (TM.getXidPosition ((n : Int) + 1)).toNat TM.fieldTranActive
          = TM.lowByte (n : Int) :: (List.replicate 7 0 ++ List.replicate (n + 1) 0) := by
        unfold TM.writeByteAt
        rw [hoffeq, hlen]
        simp [TM.fieldTranActive, List.replicate_succ']
      rw [hw1]
      have hw2 : TM.writeByteAt
          (TM.lowByte (n : Int) :: (List.replicate 7 0 ++ List.replicate (n + 1) 0)) 0
          (TM.lowByte ((n : Int) + 1))
          = TM.lowByte ((n : Int) + 1) :: (List.replicate 7 0 ++ List.replicate (n + 1) 0) := by
        unfold TM.writeByteAt
        simp [List.set]
      rw [hw2]
      push_cast
      rfl

theorem TM.beginXids_eq (n : Nat) :
    TM.beginXids n = .ok ((List.range n).map fun i => (i : Int) + 1) := by
  induction n with
  | zero => rfl
  | succ n ih =>
      show (TM.beginXids n >>= fun xs =>
        TM.beginN n >>= fun s =>
        TM.Begin s >>= fun p => Except.ok (xs ++ [p.1])) = _
      rw [ih, TM.beginN_eq]
      have hoff : ¬ TM.getXidPosition ((n : Int) + 1) < 0 := by
        unfold TM.getXidPosition TM.lenXidHeaderLength TM.xidFieldSize; omega
      simp only [bind, Except.bind, TM.Begin, TM.updateXID, hoff, if_false,
        TM.incrXIDCounter]
      simp [List.range_succ]

/-! ## Claim theorems for the transaction log -/

/-- Claim C4: `Begin()` computes `xid = counter + 1` under the lock,
durably writes the Active status byte at `position(xid)` (a `WriteAt`
followed by a `Sync`) strictly before the incremented counter's byte is
written and synced, and returns that xid; on a freshly created log the
successive `Begin()` calls return 1, 2, ..., n with no gaps. -/
theorem tm_begin_orders_writes_and_is_gap_free :
    (∀ s : TM.TMState, 0 ≤ s.xidCounter →
      TM.Begin s = .ok (s.xidCounter + 1,
        { s with
          xidCounter := s.xidCounter + 1
          file := TM.writeByteAt
                   (TM.writeByteAt s.file (TM.getXidPosition (s.xidCounter + 1)).toNat
                     TM.fieldTranActive) 0 (TM.lowByte (s.xidCounter + 1)) },
        [TM.FileEvent.writeAt (TM.getXidPosition (s.xidCounter + 1)) TM.fieldTranActive,
         TM.FileEvent.sync,
         TM.FileEvent.writeAt 0 (TM.lowByte (s.xidCounter + 1)),
         TM.FileEvent.sync])) ∧
    (∀ n : Nat, TM.beginXids n = .ok ((List.range n).map fun i => (i : Int) + 1)) := by
  constructor
  · intro s h
    have hoff : ¬ TM.getXidPosition (s.xidCounter + 1) < 0 := by
      unfold TM.getXidPosition TM.lenXidHeaderLength TM.xidFieldSize; omega
    simp only [TM.Begin, TM.updateXID, hoff, if_false, TM.incrXIDCounter,
      bind, Except.bind]
    rfl
  · exact TM.beginXids_eq

/-- Witness for C4 at the freshly created log: the first `Begin` returns
xid 1, appends the Active byte at offset 8 and syncs it before the counter
byte 1 is written at offset 0 and synced, and three successive calls
return 1, 2, 3. -/
theorem tm_begin_orders_writes_and_is_gap_free_witness :
    TM.Begin TM.Create = .ok (1,
      { TM.Create with
        xidCounter := 1
        file := TM.writeByteAt (TM.writeByteAt TM.Create.file
          (TM.getXidPosition 1).toNat TM.fieldTranActive) 0 (TM.lowByte 1) },
      [TM.FileEvent.writeAt (TM.getXidPosition 1) TM.fieldTranActive,
       TM.FileEvent.sync, TM.FileEvent.writeAt 0 (TM.lowByte 1),
       TM.FileEvent.sync]) ∧
    TM.beginXids 3 = .ok [1, 2, 3] := by
  constructor
  · exact tm_begin_orders_writes_and_is_gap_free.1 TM.Create (by decide)
  · have h := tm_begin_orders_writes_and_is_gap_free.2 3
    simpa using h

/-- Claim C9: the status queries special-case the super transaction in
every log state — `IsCommitted(0)` is `true`, `IsActive(0)` and
`IsAborted(0)` are `false`, without any read of the file (they succeed
even on states where every read would fail) — and for xid ≥ 1 each query
is exactly a read of the status byte at `position(xid)` compared against
the queried status value. -/
theorem tm_super_xid_and_read_compare :
    (∀ s : TM.TMState,
      TM.IsCommitted s 0 = .ok true ∧ TM.IsActive s 0 = .ok false ∧
      TM.IsAborted s 0 = .ok false) ∧
    (∀ (s : TM.TMState) (xid : Int), 1 ≤ xid →
      TM.IsActive s xid = (s.file[(TM.getXidPosition xid).toNat]?).elim
        (Except.error "EOF") (fun b => Except.ok (b == TM.fieldTranActive)) ∧
      TM.IsCommitted s xid = (s.file[(TM.getXidPosition xid).toNat]?).elim
        (Except.error "EOF") (fun b => Except.ok (b == TM.fieldTranCommitted)) ∧
      TM.IsAborted s xid = (s.file[(TM.getXidPosition xid).toNat]?).elim
        (Except.error "EOF") (fun b => Except.ok (b == TM.fieldTranAborted))) := by
  constructor
  · intro s
    refine ⟨?_, ?_, ?_⟩ <;> simp [TM.IsCommitted, TM.IsActive, TM.IsAborted, TM.superXid]
  · intro s xid h
    have hne : ¬ xid = TM.superXid := by unfold TM.superXid; omega
    have hoff : ¬ TM.getXidPosition xid < 0 := by
      unfold TM.getXidPosition TM.lenXidHeaderLength TM.xidFieldSize; omega
    refine ⟨?_, ?_, ?_⟩ <;>
      · simp only [TM.IsActive, TM.IsCommitted, TM.IsAborted, hne, if_false,
          TM.checkXID, hoff]
        cases s.file[(TM.getXidPosition xid).toNat]? <;> rfl

/-- Witness for C9 on the freshly created log and xid 1. -/
theorem tm_super_xid_and_read_compare_witness :
    (TM.IsCommitted TM.Create 0 = .ok true ∧ TM.IsActive TM.Create 0 = .ok false ∧
      TM.IsAborted TM.Create 0 = .ok false) ∧
    (TM.IsActive TM.Create 1 = (TM.Create.file[(TM.getXidPosition 1).toNat]?).elim
        (Except.error "EOF") (fun b => Except.ok (b == TM.fieldTranActive)) ∧
      TM.IsCommitted TM.Create 1 = (TM.Create.file[(TM.getXidPosition 1).toNat]?).elim
        (Except.error "EOF") (fun b => Except.ok (b == TM.fieldTranCommitted)) ∧
      TM.IsAborted TM.Create 1 = (TM.Create.file[(TM.getXidPosition 1).toNat]?).elim
        (Except.error "EOF") (fun b => Except.ok (b == TM.fieldTranAborted))) :=
  ⟨tm_super_xid_and_read_compare.1 TM.Create,
   tm_super_xid_and_read_compare.2 TM.Create 1 (by decide)⟩

/-- Claim C10: a status query for an xid ≥ 1 whose record lies at or past
the end of the file does not return a boolean: the `ReadAt` fails and the
query panics (`EOF`). -/
theorem tm_query_beyond_eof_panics (s : TM.TMState) (xid : Int) (h1 : 1 ≤ xid)
    (h2 : (s.file.length : Int) ≤ TM.getXidPosition xid) :
    TM.IsActive s xid = .error "EOF" ∧ TM.IsCommitted s xid = .error "EOF" ∧
    TM.IsAborted s xid = .error "EOF" := by
  have hne : ¬ xid = TM.superXid := by unfold TM.superXid; omega
  have hoff : ¬ TM.getXidPosition xid < 0 := by
    unfold TM.getXidPosition TM.lenXidHeaderLength TM.xidFieldSize; omega
  have hidx : s.file.length ≤ (TM.getXidPosition xid).toNat := by omega
  have hnone : s.file[(TM.getXidPosition xid).toNat]? = none :=
    List.getElem?_eq_none hidx
  refine ⟨?_, ?_, ?_⟩ <;>
    simp only [TM.IsActive, TM.IsCommitted, TM.IsAborted, hne, if_false,
      TM.checkXID, hoff, hnone]

/-- Witness for C10: on a freshly created log (8 header bytes, counter 0),
xid 1 lies beyond the end of the file and all three queries panic. -/
theorem tm_query_beyond_eof_panics_witness :
    TM.IsActive TM.Create 1 = .error "EOF" ∧
    TM.IsCommitted TM.Create 1 = .error "EOF" ∧
    TM.IsAborted TM.Create 1 = .error "EOF" :=
  tm_query_beyond_eof_panics TM.Create 1 (by decide) (by decide)

/-- Claim C1 (divergence): `Open` performs no integrity validation. On the
valid log file produced by `Create`; `Begin`; `Commit(1)` (`demoFile`,
which `checkXIDCounter` accepts), truncating or extending by one byte
makes `checkXIDCounter` fail — yet `Open` on either corrupted file
succeeds, never reads the header (its counter stays 0), and even a
subsequent `Begin` works on the truncated file, so the handle is usable
rather than a fatal failure. -/
theorem tm_open_skips_validation :
    TM.afterCreateBeginCommit = .ok ⟨TM.demoFile, 1, none⟩ ∧
    TM.checkXIDCounter ⟨TM.demoFile, 1, none⟩ = .ok ⟨TM.demoFile, 1, none⟩ ∧
    TM.Open TM.demoFile.dropLast = ⟨TM.demoFile.dropLast, 0, none⟩ ∧
    TM.checkXIDCounter (TM.Open TM.demoFile.dropLast) =
      .error "BadXIDFileException" ∧
    TM.Open (TM.demoFile ++ [0]) = ⟨TM.demoFile ++ [0], 0, none⟩ ∧
    TM.checkXIDCounter (TM.Open (TM.demoFile ++ [0])) =
      .error "BadXIDFileException" ∧
    TM.Begin (TM.Open TM.demoFile.dropLast) =
      .ok (1, ⟨[1, 0, 0, 0, 0, 0, 0, 0, 0], 1, none⟩,
        [TM.FileEvent.writeAt 8 0, TM.FileEvent.sync,
         TM.FileEvent.writeAt 0 1, TM.FileEvent.sync]) :=
  ⟨rfl, rfl, rfl, rfl, rfl, rfl, rfl⟩

set_option maxRecDepth 8000 in
/-- Claim C2 (divergence): after 256 `Begin` calls the in-memory counter
is 256, but the header persists only `byte(xidCounter)`: the byte at file
offset 0 is 0, not 256, and reading the header back (`checkXIDCounter`)
does not recover 256 — it reads counter 0 and then fails the length
check. -/
theorem tm_counter_persists_low_byte_only :
    TM.beginN 256 =
      .ok ⟨0 :: (List.replicate 7 0 ++ List.replicate 256 0), 256, none⟩ ∧
    TM.checkXIDCounter
        ⟨0 :: (List.replicate 7 0 ++ List.replicate 256 0), 256, none⟩ =
      .error "BadXIDFileException" := by
  constructor
  · have h := TM.beginN_eq 256
    norm_num [TM.lowByte] at h
    exact h
  · rfl

/-- Claim C3 (divergence): the durability round-trip `Create`; `Begin`
(xid 1); `Commit(1)`; `Close()`; `Open`; `IsCommitted(1)` fails at the
`Close()` step, because neither `Create` nor `Open` ever sets the `fc`
field and `t.fc.Close()` dereferences the nil interface; with the
`Close()` step skipped the remainder of the round-trip returns `true`. -/
theorem tm_roundtrip_fails_at_close :
    TM.roundtrip = .error "nil interface dereference in fc.Close" ∧
    TM.roundtripNoClose = .ok true ∧
    TM.Close TM.Create = .error "nil interface dereference in fc.Close" :=
  ⟨rfl, rfl, rfl⟩

/-! ## Helper lemmas for the association lists of the cache -/

theorem AC.alookup_aerase {α : Type} (l : List (Int × α)) (k k' : Int) :
    AC.alookup (AC.aerase l k) k' = if k' = k then none else AC.alookup l k' := by
  induction l with
  | nil => simp [AC.alookup, AC.aerase]
  | cons p t ih =>
      by_cases hp : p.1 = k
      · by_cases hk : k' = k <;>
          simp_all [AC.aerase, AC.alookup, List.filter_cons]
      · by_cases hk : k' = p.1 <;>
          simp_all [AC.aerase, AC.alookup, List.filter_cons]

theorem AC.alookup_ainsert {α : Type} (l : List (Int × α)) (k : Int) (v : α)
    (k' : Int) :
    AC.alookup (AC.ainsert l k v) k' = if k' = k then some v else AC.alookup l k' := by
  by_cases hk : k' = k <;> simp [AC.ainsert, AC.alookup, hk, AC.alookup_aerase]

theorem AC.alookup_isSome_iff_mem {α : Type} (l : List (Int × α)) (k : Int) :
    (AC.alookup l k).isSome ↔ k ∈ AC.keysOf l := by
  induction l with
  | nil => simp [AC.alookup, AC.keysOf]
  | cons p t ih =>
      by_cases hk : k = p.1 <;> simp_all [AC.alookup, AC.keysOf]

theorem AC.aerase_of_not_mem {α : Type} (l : List (Int × α)) (k : Int)
    (h : k ∉ AC.keysOf l) : AC.aerase l k = l := by
  rw [AC.aerase, List.filter_eq_self]
  intro p hp
  simp only [Bool.not_eq_true', beq_eq_false_iff_ne]
  intro hpk
  exact h (hpk ▸ List.mem_map_of_mem (fun q => q.1) hp)

theorem AC.keysOf_aerase {α : Type} (l : List (Int × α)) (k : Int) :
    AC.keysOf (AC.aerase l k) = (AC.keysOf l).filter (fun x => !(x == k)) := by
  induction l with
  | nil => rfl
  | cons p t ih =>
      by_cases hp : p.1 = k <;>
        simp_all [AC.aerase, AC.keysOf, List.filter_cons]

theorem AC.nodup_keysOf_aerase {α : Type} (l : List (Int × α)) (k : Int)
    (h : (AC.keysOf l).Nodup) : (AC.keysOf (AC.aerase l k)).Nodup := by
  rw [AC.keysOf_aerase]
  exact h.filter _

theorem AC.nodup_keysOf_ainsert {α : Type} (l : List (Int × α)) (k : Int) (v : α)
    (h : (AC.keysOf l).Nodup) : (AC.keysOf (AC.ainsert l k v)).Nodup := by
  have hk : k ∉ AC.keysOf (AC.aerase l k) := by
    intro hmem
    have := (AC.alookup_isSome_iff_mem _ _).mpr hmem
    rw [AC.alookup_aerase] at this
    simp at this
  simpa [AC.ainsert, AC.keysOf] using
    And.intro (by simpa [AC.keysOf] using hk) (AC.nodup_keysOf_aerase l k h)

theorem AC.length_aerase_of_lookup_some {α : Type} (l : List (Int × α)) (k : Int)
    (v : α) (hn : (AC.keysOf l).Nodup) (h : AC.alookup l k = some v) :
    (AC.aerase l k).length + 1 = l.length := by
  induction l with
  | nil => simp [AC.alookup] at h
  | cons p t ih =>
      have hh : p.1 ∉ AC.keysOf t ∧ (AC.keysOf t).Nodup := by
        rw [show AC.keysOf (p :: t) = p.1 :: AC.keysOf t from rfl] at hn
        exact List.nodup_cons.mp hn
      by_cases hp : k = p.1
      · subst hp
        have ht : AC.aerase t p.1 = t := AC.aerase_of_not_mem t p.1 hh.1
        have h2 : AC.aerase (p :: t) p.1 = t := by
          rw [AC.aerase] at ht
          rw [AC.aerase, List.filter_cons]
          simpa using ht
        rw [h2]
        simp
      · have h' : AC.alookup t k = some v := by simpa [AC.alookup, hp] using h
        have h2 : AC.aerase (p :: t) k = p :: AC.aerase t k := by
          rw [AC.aerase, List.filter_cons]
          have hq : (p.1 == k) = false := by
            simp only [beq_eq_false_iff_ne]
            exact fun hq => hp hq.symm
          rw [hq]
          rfl
        rw [h2]
        have := ih hh.2 h'
        simp only [List.length_cons]
        omega


/-! ## Branch lemmas for `Get` -/

theorem AC.get_blocked {R E : Type} (s : AC.CacheState R) (key : Int)
    (load : AC.LoadResult R E) (h : key ∈ s.getting) :
    AC.Get s key load = (.blocked, s, false) := by
  simp [AC.Get, h]

theorem AC.get_hit {R E : Type} (s : AC.CacheState R) (key : Int)
    (load : AC.LoadResult R E) (r : R) (h1 : key ∉ s.getting)
    (h2 : AC.alookup s.cache key = some r) :
    AC.Get s key load = (.hit r,
      { s with references := AC.ainsert s.references key ((AC.alookup s.references key).getD 0 + 1) },
      false) := by
  simp [AC.Get, h1, h2]

theorem AC.get_full_eq {R E : Type} (s : AC.CacheState R) (key : Int)
    (load : AC.LoadResult R E) (h1 : key ∉ s.getting)
    (h2 : AC.alookup s.cache key = none)
    (h3 : s.maxResource > 0 ∧ s.count = s.maxResource) :
    AC.Get s key load = (.full, s, false) := by
  simp [AC.Get, h1, h2, h3]

theorem AC.get_err {R E : Type} (s : AC.CacheState R) (key : Int) (e : E)
    (h1 : key ∉ s.getting) (h2 : AC.alookup s.cache key = none)
    (h3 : ¬ (s.maxResource > 0 ∧ s.count = s.maxResource)) :
    AC.Get s key (AC.LoadResult.err e : AC.LoadResult R E) = (.loadFailed e,
      { s with
        count := s.count + 1 - 1
        getting := (key :: s.getting).filter (fun k => !(k == key)) },
      true) := by
  simp [AC.Get, h1, h2, h3]

theorem AC.get_ok {R E : Type} (s : AC.CacheState R) (key : Int) (r : R)
    (h1 : key ∉ s.getting) (h2 : AC.alookup s.cache key = none)
    (h3 : ¬ (s.maxResource > 0 ∧ s.count = s.maxResource)) :
    AC.Get s key (AC.LoadResult.ok r : AC.LoadResult R E) = (.loaded r,
      { s with
        count := s.count + 1
        getting := (key :: s.getting).filter (fun k => !(k == key))
        cache := AC.ainsert s.cache key r
        references := AC.ainsert s.references key 1 },
      true) := by
  simp [AC.Get, h1, h2, h3]

/-- Claim C5: `Get(key)` returns `CacheFull` exactly when the cache is
bounded (`maxResource > 0`), the key is absent (not resident and not in
`getting`), and the resident-plus-loading `count` equals the bound; in
that case the call returns with the state unchanged and without invoking
the loader (third component `false`). A resident key never fails on
capacity: it bumps the refcount and returns the resource, loader
untouched. -/
theorem cache_full_iff_bounded_absent_at_capacity {R E : Type}
    (s : AC.CacheState R) (key : Int) (load : AC.LoadResult R E) :
    ((AC.Get s key load).1 = .full ↔
      (s.maxResource > 0 ∧ key ∉ s.getting ∧ AC.alookup s.cache key = none ∧
       s.count = s.maxResource)) ∧
    ((AC.Get s key load).1 = .full → AC.Get s key load = (.full, s, false)) ∧
    (∀ r, key ∉ s.getting → AC.alookup s.cache key = some r →
      AC.Get s key load = (.hit r,
        { s with references := AC.ainsert s.references key ((AC.alookup s.references key).getD 0 + 1) },
        false)) := by
  refine ⟨?_, ?_, fun r h1 h2 => AC.get_hit s key load r h1 h2⟩
  · by_cases h1 : key ∈ s.getting
    · rw [AC.get_blocked s key load h1]
      simp [h1]
    · cases h2 : AC.alookup s.cache key with
      | some r =>
          rw [AC.get_hit s key load r h1 h2]
          simp [h2]
      | none =>
          by_cases h3 : s.maxResource > 0 ∧ s.count = s.maxResource
          · rw [AC.get_full_eq s key load h1 h2 h3]
            exact iff_of_true rfl ⟨h3.1, h1, rfl, h3.2⟩
          · cases load with
            | err e =>
                rw [AC.get_err s key e h1 h2 h3]
                simp only [false_iff, reduceCtorEq]
                tauto
            | ok r =>
                rw [AC.get_ok s key r h1 h2 h3]
                simp only [false_iff, reduceCtorEq]
                tauto
  · intro hfull
    by_cases h1 : key ∈ s.getting
    · rw [AC.get_blocked s key load h1] at hfull
      simp at hfull
    · cases h2 : AC.alookup s.cache key with
      | some r =>
          rw [AC.get_hit s key load r h1 h2] at hfull
          simp at hfull
      | none =>
          by_cases h3 : s.maxResource > 0 ∧ s.count = s.maxResource
          · exact AC.get_full_eq s key load h1 h2 h3
          · cases load with
            | err e =>
                rw [AC.get_err s key e h1 h2 h3] at hfull
                simp at hfull
            | ok r =>
                rw [AC.get_ok s key r h1 h2 h3] at hfull
                simp at hfull

/-- Witness for C5 on `demo2`, a bounded cache of capacity 2 holding keys
1 and 2: `Get(3)` reports full and changes nothing, and `Get(1)` is a hit
that only bumps the refcount. -/
theorem cache_full_iff_bounded_absent_at_capacity_witness :
    (AC.Get AC.demo2 3 (AC.LoadResult.ok 99 : AC.LoadResult Nat Unit)).1 = .full ∧
    AC.Get AC.demo2 3 (AC.LoadResult.ok 99 : AC.LoadResult Nat Unit) =
      (.full, AC.demo2, false) ∧
    AC.Get AC.demo2 1 (AC.LoadResult.ok 99 : AC.LoadResult Nat Unit) =
      (.hit 10,
        { AC.demo2 with references := AC.ainsert AC.demo2.references 1 ((AC.alookup AC.demo2.references 1).getD 0 + 1) },
        false) := by
  have hfull := (cache_full_iff_bounded_absent_at_capacity AC.demo2 3
    (AC.LoadResult.ok 99 : AC.LoadResult Nat Unit)).1.mpr
    ⟨by decide, by simp [AC.demo2], by rfl, by decide⟩
  refine ⟨hfull, ?_, ?_⟩
  · exact (cache_full_iff_bounded_absent_at_capacity AC.demo2 3
      (AC.LoadResult.ok 99 : AC.LoadResult Nat Unit)).2.1 hfull
  · exact (cache_full_iff_bounded_absent_at_capacity AC.demo2 1
      (AC.LoadResult.ok 99 : AC.LoadResult Nat Unit)).2.2 10 (by simp [AC.demo2]) (by rfl)

/-! ## The sequential invariant and its preservation -/

theorem AC.inv_new (R : Type) (m : Int) : AC.Inv (AC.NewAbstractCache R m) := by
  refine ⟨rfl, ?_, ?_, ?_, ?_, rfl⟩ <;>
    simp [AC.NewAbstractCache, AC.keysOf, AC.alookup]

theorem AC.inv_get {R E : Type} (s : AC.CacheState R) (key : Int)
    (load : AC.LoadResult R E) (h : AC.Inv s) : AC.Inv (AC.Get s key load).2.1 := by
  obtain ⟨hg, hnc, hnr, hiff, hge1, hcount⟩ := h
  have h1 : key ∉ s.getting := by rw [hg]; simp
  cases hl : AC.alookup s.cache key with
  | some r =>
      rw [AC.get_hit s key load r h1 hl]
      refine ⟨hg, hnc, AC.nodup_keysOf_ainsert _ _ _ hnr, ?_, ?_, hcount⟩
      · intro k
        by_cases hk : k = key
        · subst hk
          simp [AC.alookup_ainsert, hl]
        · simp [AC.alookup_ainsert, hk, hiff k]
      · intro k n hkn
        rw [AC.alookup_ainsert] at hkn
        by_cases hk : k = key
        · rw [if_pos hk] at hkn
          have hsome : (AC.alookup s.references key).isSome :=
            (hiff key).mp (by simp [hl])
          obtain ⟨m, hm⟩ := Option.isSome_iff_exists.mp hsome
          have hm1 := hge1 key m hm
          rw [hm] at hkn
          simp at hkn
          omega
        · rw [if_neg hk] at hkn
          exact hge1 k n hkn
  | none =>
      by_cases h3 : s.maxResource > 0 ∧ s.count = s.maxResource
      · rw [AC.get_full_eq s key load h1 hl h3]
        exact ⟨hg, hnc, hnr, hiff, hge1, hcount⟩
      · cases load with
        | err e =>
            rw [AC.get_err s key e h1 hl h3]
            refine ⟨?_, hnc, hnr, hiff, hge1, ?_⟩
            · rw [hg]
              simp
            · simpa using hcount
        | ok r =>
            rw [AC.get_ok s key r h1 hl h3]
            have hne : AC.aerase s.cache key = s.cache := by
              refine AC.aerase_of_not_mem _ _ ?_
              intro hmem
              have := (AC.alookup_isSome_iff_mem s.cache key).mpr hmem
              rw [hl] at this
              simp at this
            refine ⟨?_, AC.nodup_keysOf_ainsert _ _ _ hnc,
              AC.nodup_keysOf_ainsert _ _ _ hnr, ?_, ?_, ?_⟩
            · rw [hg]
              simp
            · intro k
              by_cases hk : k = key
              · subst hk
                simp [AC.alookup_ainsert]
              · simp [AC.alookup_ainsert, hk, hiff k]
            · intro k n hkn
              rw [AC.alookup_ainsert] at hkn
              by_cases hk : k = key
              · rw [if_pos hk] at hkn
                simp at hkn
                omega
              · rw [if_neg hk] at hkn
                exact hge1 k n hkn
            · simp only [AC.ainsert, hne, List.length_cons, hcount]
              push_cast
              ring

theorem AC.inv_release {R : Type} (s : AC.CacheState R) (key : Int)
    (h : AC.Inv s) : AC.Inv (AC.Release s key).1 := by
  obtain ⟨hg, hnc, hnr, hiff, hge1, hcount⟩ := h
  cases hr : AC.alookup s.references key with
  | none =>
      simp only [AC.Release, hr]
      exact ⟨hg, hnc, hnr, hiff, hge1, hcount⟩
  | some ref =>
      have href : 1 ≤ ref := hge1 key ref hr
      have hsome : (AC.alookup s.cache key).isSome := (hiff key).mpr (by simp [hr])
      obtain ⟨r, hrr⟩ := Option.isSome_iff_exists.mp hsome
      by_cases h0 : ref - 1 = 0
      · simp only [AC.Release, hr, h0, if_true]
        refine ⟨hg, AC.nodup_keysOf_aerase _ _ hnc, AC.nodup_keysOf_aerase _ _ hnr,
          ?_, ?_, ?_⟩
        · intro k
          rw [AC.alookup_aerase, AC.alookup_aerase]
          by_cases hk : k = key
          · simp [hk]
          · simp [hk, hiff k]
        · intro k n hkn
          rw [AC.alookup_aerase] at hkn
          by_cases hk : k = key
          · rw [if_pos hk] at hkn
            simp at hkn
          · rw [if_neg hk] at hkn
            exact hge1 k n hkn
        · have hlen := AC.length_aerase_of_lookup_some s.cache key r hnc hrr
          simp only
          omega
      · simp only [AC.Release, hr, h0, if_false]
        refine ⟨hg, hnc, AC.nodup_keysOf_ainsert _ _ _ hnr, ?_, ?_, hcount⟩
        · intro k
          rw [AC.alookup_ainsert]
          by_cases hk : k = key
          · simp [hk, hrr]
          · simp [hk, hiff k]
        · intro k n hkn
          rw [AC.alookup_ainsert] at hkn
          by_cases hk : k = key
          · rw [if_pos hk] at hkn
            simp at hkn
            omega
          · rw [if_neg hk] at hkn
            exact hge1 k n hkn

theorem AC.close_foldl_cache {R : Type} (ps : List (Int × R))
    (acc : AC.CacheState R) (k : Int) :
    AC.alookup (ps.foldl AC.closeStep acc).cache k =
      if k ∈ AC.keysOf ps then none else AC.alookup acc.cache k := by
  induction ps generalizing acc with
  | nil => simp [AC.keysOf]
  | cons p t ih =>
      rw [List.foldl_cons, ih]
      have hcons : (k ∈ AC.keysOf (p :: t)) ↔ (k = p.1 ∨ k ∈ AC.keysOf t) := by
        simp [AC.keysOf]
      by_cases hk : k = p.1
      · simp [AC.closeStep, AC.alookup_aerase, hk, AC.keysOf]
      · by_cases hmem : k ∈ AC.keysOf t
        · rw [if_pos hmem, if_pos (hcons.mpr (Or.inr hmem))]
        · rw [if_neg hmem,
            if_neg (fun hx => (hcons.mp hx).elim (fun h => hk h) (fun h => hmem h))]
          simp [AC.closeStep, AC.alookup_aerase, hk]

theorem AC.close_foldl_references {R : Type} (ps : List (Int × R))
    (acc : AC.CacheState R) (k : Int) :
    AC.alookup (ps.foldl AC.closeStep acc).references k =
      if k ∈ AC.keysOf ps then none else AC.alookup acc.references k := by
  induction ps generalizing acc with
  | nil => simp [AC.keysOf]
  | cons p t ih =>
      rw [List.foldl_cons, ih]
      have hcons : (k ∈ AC.keysOf (p :: t)) ↔ (k = p.1 ∨ k ∈ AC.keysOf t) := by
        simp [AC.keysOf]
      by_cases hk : k = p.1
      · simp [AC.closeStep, AC.alookup_aerase, hk, AC.keysOf]
      · by_cases hmem : k ∈ AC.keysOf t
        · rw [if_pos hmem, if_pos (hcons.mpr (Or.inr hmem))]
        · rw [if_neg hmem,
            if_neg (fun hx => (hcons.mp hx).elim (fun h => hk h) (fun h => hmem h))]
          simp [AC.closeStep, AC.alookup_aerase, hk]

theorem AC.close_foldl_count {R : Type} (ps : List (Int × R))
    (acc : AC.CacheState R) :
    (ps.foldl AC.closeStep acc).count = acc.count - ps.length := by
  induction ps generalizing acc with
  | nil => simp
  | cons p t ih =>
      rw [List.foldl_cons, ih]
      simp [AC.closeStep]
      ring

theorem AC.close_foldl_getting {R : Type} (ps : List (Int × R))
    (acc : AC.CacheState R) :
    (ps.foldl AC.closeStep acc).getting = acc.getting := by
  induction ps generalizing acc with
  | nil => rfl
  | cons p t ih =>
      rw [List.foldl_cons, ih]
      rfl

theorem AC.close_foldl_maxResource {R : Type} (ps : List (Int × R))
    (acc : AC.CacheState R) :
    (ps.foldl AC.closeStep acc).maxResource = acc.maxResource := by
  induction ps generalizing acc with
  | nil => rfl
  | cons p t ih =>
      rw [List.foldl_cons, ih]
      rfl

theorem AC.eq_nil_of_alookup_none {α : Type} (l : List (Int × α))
    (h : ∀ k, AC.alookup l k = none) : l = [] := by
  cases l with
  | nil => rfl
  | cons p t =>
      have := h p.1
      simp [AC.alookup] at this

/-- Under the sequential invariant, `Close` empties every piece of state
(the `getting` set was already empty and is untouched) and calls
`releaseForCache` once per resident entry, in the order entries are
listed. -/
theorem AC.close_spec {R : Type} (s : AC.CacheState R) (h : AC.Inv s) :
    AC.Close s = (⟨[], [], s.getting, s.maxResource, 0⟩,
      s.cache.map (fun p => some p.2)) := by
  obtain ⟨hg, hnc, hnr, hiff, hge1, hcount⟩ := h
  have hcache : (s.cache.foldl AC.closeStep s).cache = [] := by
    refine AC.eq_nil_of_alookup_none _ ?_
    intro k
    rw [AC.close_foldl_cache]
    by_cases hk : k ∈ AC.keysOf s.cache
    · simp [hk]
    · rw [if_neg hk]
      have := (AC.alookup_isSome_iff_mem s.cache k)
      cases hc : AC.alookup s.cache k with
      | none => rfl
      | some r =>
          exact absurd (this.mp (by simp [hc])) hk
  have hrefs : (s.cache.foldl AC.closeStep s).references = [] := by
    refine AC.eq_nil_of_alookup_none _ ?_
    intro k
    rw [AC.close_foldl_references]
    by_cases hk : k ∈ AC.keysOf s.cache
    · simp [hk]
    · rw [if_neg hk]
      cases hc : AC.alookup s.references k with
      | none => rfl
      | some n =>
          have hsome : (AC.alookup s.cache k).isSome := (hiff k).mpr (by simp [hc])
          exact absurd ((AC.alookup_isSome_iff_mem s.cache k).mp hsome) hk
  have hcnt : (s.cache.foldl AC.closeStep s).count = 0 := by
    rw [AC.close_foldl_count]
    omega
  have hget : (s.cache.foldl AC.closeStep s).getting = s.getting :=
    AC.close_foldl_getting s.cache s
  have hmax : (s.cache.foldl AC.closeStep s).maxResource = s.maxResource :=
    AC.close_foldl_maxResource s.cache s
  show (s.cache.foldl AC.closeStep s, s.cache.map (fun p => some p.2)) = _
  refine Prod.ext ?_ rfl
  cases hfold : s.cache.foldl AC.closeStep s
  rw [hfold] at hcache hrefs hcnt hget hmax
  simp only at hcache hrefs hcnt hget hmax
  simp [hcache, hrefs, hcnt, hget, hmax]

theorem AC.inv_close {R : Type} (s : AC.CacheState R) (h : AC.Inv s) :
    AC.Inv (AC.Close s).1 := by
  have hc := AC.close_spec s h
  have h1 : (AC.Close s).1 = ⟨[], [], s.getting, s.maxResource, 0⟩ := by rw [hc]
  rw [h1]
  obtain ⟨hg, _, _, _, _, _⟩ := h
  exact ⟨hg, by simp [AC.keysOf], by simp [AC.keysOf],
    by intro k; simp [AC.alookup], by intro k n hkn; simp [AC.alookup] at hkn,
    by simp⟩

theorem AC.reachable_inv {R E : Type} (s : AC.CacheState R)
    (h : @AC.Reachable R E s) : AC.Inv s := by
  induction h with
  | init m => exact AC.inv_new R m
  | get s key load _ ih => exact AC.inv_get s key load ih
  | release s key _ ih => exact AC.inv_release s key ih
  | close s _ ih => exact AC.inv_close s ih

/-- Claim C6: when the loader fails during a miss on a reachable state,
`Get` propagates the error verbatim (`loadFailed e`, loader invoked) and
the state after the call is exactly the state before it — the reserved
slot is given back, the `Loading` marker is gone, and no cache entry or
refcount for the key exists (the refcount lookup was and stays `none`). -/
theorem cache_load_failure_leaves_no_trace {R E : Type} (s : AC.CacheState R)
    (key : Int) (e : E) (hr : @AC.Reachable R E s)
    (habs : AC.alookup s.cache key = none)
    (hcap : ¬ (s.maxResource > 0 ∧ s.count = s.maxResource)) :
    AC.Get s key (AC.LoadResult.err e : AC.LoadResult R E) =
      (.loadFailed e, s, true) ∧
    AC.alookup s.references key = none := by
  obtain ⟨hg, hnc, hnr, hiff, hge1, hcount⟩ := AC.reachable_inv s hr
  have h1 : key ∉ s.getting := by rw [hg]; simp
  refine ⟨?_, ?_⟩
  · rw [AC.get_err s key e h1 habs hcap]
    rcases s with ⟨cache, refs, getting, maxR, count⟩
    simp only at hg
    subst hg
    simp [List.filter_cons]
  · cases hrk : AC.alookup s.references key with
    | none => rfl
    | some n =>
        have hsome : (AC.alookup s.cache key).isSome := (hiff key).mpr (by simp [hrk])
        rw [habs] at hsome
        simp at hsome

/-- Witness for C6: on the reachable state `demoLoaded` (capacity 2, one
resident entry), a failing load of the absent key 9 returns the error and
leaves the state untouched, with no refcount for key 9. -/
theorem cache_load_failure_leaves_no_trace_witness :
    AC.Get AC.demoLoaded 9 (AC.LoadResult.err () : AC.LoadResult Nat Unit) =
      (.loadFailed (), AC.demoLoaded, true) ∧
    AC.alookup AC.demoLoaded.references 9 = none :=
  cache_load_failure_leaves_no_trace AC.demoLoaded 9 ()
    (AC.Reachable.get (AC.NewAbstractCache Nat 2) 5
      (AC.LoadResult.ok 7 : AC.LoadResult Nat Unit) (AC.Reachable.init 2))
    (by decide) (by decide)

/-- Claim C7: on every reachable state a key is resident iff its refcount
is at least 1; `Release` of a key whose refcount is 1 hands the resident
resource to `releaseForCache`, removes both the entry and the refcount and
frees the slot (`count - 1`), all in the one locked step; and `Release` of
a key with no refcount binding changes nothing and releases nothing. -/
theorem cache_present_iff_refcounted {R E : Type} (s : AC.CacheState R)
    (hr : @AC.Reachable R E s) :
    (∀ k, (AC.alookup s.cache k).isSome ↔
      ∃ n, AC.alookup s.references k = some n ∧ 1 ≤ n) ∧
    (∀ k r, AC.alookup s.references k = some 1 → AC.alookup s.cache k = some r →
      AC.Release s k =
        ({ s with
           references := AC.aerase s.references k
           cache := AC.aerase s.cache k
           count := s.count - 1 }, [some r])) ∧
    (∀ k, AC.alookup s.references k = none → AC.Release s k = (s, [])) := by
  obtain ⟨hg, hnc, hnr, hiff, hge1, hcount⟩ := AC.reachable_inv s hr
  refine ⟨?_, ?_, ?_⟩
  · intro k
    rw [hiff k]
    constructor
    · intro hsome
      obtain ⟨n, hn⟩ := Option.isSome_iff_exists.mp hsome
      exact ⟨n, hn, hge1 k n hn⟩
    · rintro ⟨n, hn, _⟩
      simp [hn]
  · intro k r h1 h2
    simp [AC.Release, h1, h2]
  · intro k h1
    simp [AC.Release, h1]

/-- Witness for C7 on the reachable state `demoLoaded`: key 5 is resident
with refcount 1, releasing it hands resource 7 back and empties the slot,
and releasing the unknown key 9 is a no-op. -/
theorem cache_present_iff_refcounted_witness :
    ((AC.alookup AC.demoLoaded.cache 5).isSome ↔
      ∃ n, AC.alookup AC.demoLoaded.references 5 = some n ∧ 1 ≤ n) ∧
    AC.Release AC.demoLoaded 5 =
      ({ AC.demoLoaded with
         references := AC.aerase AC.demoLoaded.references 5
         cache := AC.aerase AC.demoLoaded.cache 5
         count := AC.demoLoaded.count - 1 }, [some 7]) ∧
    AC.Release AC.demoLoaded 9 = (AC.demoLoaded, []) := by
  have h := cache_present_iff_refcounted AC.demoLoaded
    (AC.Reachable.get (AC.NewAbstractCache Nat 2) 5
      (AC.LoadResult.ok 7 : AC.LoadResult Nat Unit) (AC.Reachable.init 2))
  exact ⟨h.1 5, h.2.1 5 7 (by decide) (by decide), h.2.2 9 (by decide)⟩

/-- Claim C8: on every reachable state, `Close()` emits one
`releaseForCache` call per resident entry — exactly once each, since the
resident keys are distinct — and afterwards the cache map, the refcount
map and the `getting` set are all empty and the count is 0. -/
theorem cache_close_releases_each_entry_once {R E : Type} (s : AC.CacheState R)
    (hr : @AC.Reachable R E s) :
    AC.Close s = (⟨[], [], [], s.maxResource, 0⟩,
      s.cache.map (fun p => some p.2)) ∧
    (AC.keysOf s.cache).Nodup := by
  have hinv := AC.reachable_inv s hr
  have h := AC.close_spec s hinv
  obtain ⟨hg, hnc, _, _, _, _⟩ := hinv
  rw [h, hg]
  exact ⟨rfl, hnc⟩

/-- Witness for C8 on the reachable state `demoLoaded`: closing it
releases exactly resource 7 and empties all state. -/
theorem cache_close_releases_each_entry_once_witness :
    AC.Close AC.demoLoaded = (⟨[], [], [], AC.demoLoaded.maxResource, 0⟩,
      AC.demoLoaded.cache.map (fun p => some p.2)) ∧
    (AC.keysOf AC.demoLoaded.cache).Nodup :=
  cache_close_releases_each_entry_once AC.demoLoaded
    (AC.Reachable.get (AC.NewAbstractCache Nat 2) 5
      (AC.LoadResult.ok 7 : AC.LoadResult Nat Unit) (AC.Reachable.init 2))
